import Mathlib

set_option maxRecDepth 100000

/-!
Shallow embedding of the ELF disassembler (main.cpp and the unnamed
variant source file).  Byte buffers are modelled as `List Nat` whose
elements are byte values; every raw memory access of the C++ source is
modelled with an `Option`-valued lookup, so that an out-of-bounds access
(undefined behavior in the source) surfaces as a distinguished outcome
instead of silently wrapping.
-/

namespace Disassembler

/-! ## Instruction decoder (function `disassemble` and helper `read32`) -/

/-- Combination of four bytes into a little-endian 32-bit value, exactly the
expression in the body of `read32`:
`b0 | (b1 << 8) | (b2 << 16) | (b3 << 24)`. -/
def read32val (b0 b1 b2 b3 : Nat) : Nat :=
  b0 ||| (b1 <<< 8) ||| (b2 <<< 16) ||| (b3 <<< 24)

/-- Embedding of `read32(code, index)`: reads `code[index] .. code[index+3]`
and assembles them little-endian.  The C++ comment states the caller must
guarantee the four indices are in bounds; an out-of-bounds access is
undefined behavior and is modelled by `none`. -/
def read32 (code : List Nat) (index : Nat) : Option Nat :=
  match code[index]?, code[index + 1]?, code[index + 2]?, code[index + 3]? with
  | some b0, some b1, some b2, some b3 => some (read32val b0 b1 b2 b3)
  | _, _, _, _ => none

/-- One decoded instruction, as printed by the decode loop:
address (base + cursor), mnemonic, operand text, and the number of input
bytes the decode step consumed. -/
structure Record where
  address : Nat
  mnemonic : String
  operand : String
  byteWidth : Nat
deriving DecidableEq

/-- Outcome of a decode run.  `ok` is normal completion at the end of the
buffer; `truncated` is the "Unexpected end of code" early return;
`oobRead` marks a run in which `read32` accessed an index past the end of
the buffer (undefined behavior in the source).  Each constructor carries
the records emitted before stopping. -/
inductive DecodeResult where
  | ok : List Record → DecodeResult
  | truncated : List Record → DecodeResult
  | oobRead : List Record → DecodeResult
deriving DecidableEq

/-- Prepends a record emitted by one loop iteration to the result of the
rest of the run. -/
def DecodeResult.cons (r : Record) : DecodeResult → DecodeResult
  | ok rs => ok (r :: rs)
  | truncated rs => truncated (r :: rs)
  | oobRead rs => oobRead (r :: rs)

/-- Hexadecimal digit character, lowercase, as produced by `std::hex`. -/
def hexChar (d : Nat) : Char :=
  if d < 10 then Char.ofNat (0x30 + d) else Char.ofNat (0x57 + d)

/-- Fuel-driven accumulation of hexadecimal digits, most significant first. -/
def hexCore : Nat → Nat → List Char → List Char
  | 0, _, acc => acc
  | fuel + 1, n, acc =>
    if n < 16 then hexChar n :: acc
    else hexCore fuel (n / 16) (hexChar (n % 16) :: acc)

/-- Lowercase hexadecimal rendering of a number (no leading zeros), as
`std::hex` prints it. -/
def hexStr (n : Nat) : String :=
  String.mk (hexCore (n + 1) n [])

/-- Zero-padding to width 2, as `std::setw(2) << std::setfill('0')` does. -/
def pad2 (s : String) : String :=
  if s.length < 2 then "0" ++ s else s

/-- Instruction-set profile: the register-name table used for the
`0xB8..0xBF` pattern and whether the single-byte `0xC3` (`ret`) opcode is
recognized.  `main.cpp` uses 64-bit names and no `ret`; the unnamed
variant source uses 32-bit names and recognizes `ret`. -/
structure DecoderProfile where
  regNames : List String
  hasRet : Bool
deriving DecidableEq

/-- Profile of `disassemble` in `main.cpp`. -/
def mainProfile : DecoderProfile :=
  ⟨["rax", "rcx", "rdx", "rbx", "rsp", "rbp", "rsi", "rdi"], false⟩

/-- Profile of `disassemble` in the unnamed variant source file. -/
def altProfile : DecoderProfile :=
  ⟨["eax", "ecx", "edx", "ebx", "esp", "ebp", "esi", "edi"], true⟩

/-- Embedding of the decode loop of `disassemble`.  The C++ cursor `i` is
represented by the suffix of the buffer still to decode; `addr` is
`baseAddress + i`.  The truncation guard mirrors `i + 4 > code.size()`
verbatim: with cursor suffix `opcode :: rest` and `code.size() = i + 1 +
rest.length`, that inequality is `rest.length < 3`.  When the guard passes
but `rest` holds only 3 bytes, `read32(code, i+1)` reads one byte past the
end of the buffer; that undefined access is modelled by `oobRead`. -/
def disasmGo (p : DecoderProfile) : Nat → List Nat → DecodeResult
  | _, [] => .ok []
  | addr, opcode :: rest =>
    if 0xB8 ≤ opcode ∧ opcode ≤ 0xBF then
      if rest.length < 3 then .truncated []
      else
        match rest with
        | b0 :: b1 :: b2 :: b3 :: rest2 =>
          DecodeResult.cons
            ⟨addr, "mov",
              (p.regNames.getD (opcode - 0xB8) "") ++ ", 0x" ++
                hexStr (read32val b0 b1 b2 b3), 5⟩
            (disasmGo p (addr + 5) rest2)
        | _ => .oobRead []
    else if p.hasRet = true ∧ opcode = 0xC3 then
      DecodeResult.cons ⟨addr, "ret", "", 1⟩ (disasmGo p (addr + 1) rest)
    else if opcode = 0x90 then
      DecodeResult.cons ⟨addr, "nop", "", 1⟩ (disasmGo p (addr + 1) rest)
    else
      DecodeResult.cons ⟨addr, "db", "0x" ++ pad2 (hexStr opcode), 1⟩
        (disasmGo p (addr + 1) rest)

/-- Embedding of `disassemble(code, baseAddress)` from `main.cpp`. -/
def disassemble (code : List Nat) (baseAddress : Nat) : DecodeResult :=
  disasmGo mainProfile baseAddress code

/-- Embedding of `disassemble(code)` from the unnamed variant source. -/
def disassembleAlt (code : List Nat) : DecodeResult :=
  disasmGo altProfile 0 code

example : disassemble [0xB8, 0x01, 0x00, 0x00, 0x00, 0x90] 0 =
    .ok [⟨0, "mov", "rax, 0x1", 5⟩, ⟨5, "nop", "", 1⟩] := by decide

example : disassemble [0xB8] 0 = .truncated [] := by decide

example : disassemble [0xB8, 7, 7, 7] 0 = .oobRead [] := by decide

example : disassemble [0xFF] 0 = .ok [⟨0, "db", "0xff", 1⟩] := by decide

example : disassembleAlt [0xC3] = .ok [⟨0, "ret", "", 1⟩] := by decide

/-! ## Header validation and parsing (functions `isELF`, `printELFHeader`) -/

/-- Embedding of `isELF`: at least 4 bytes and the fixed magic
`{0x7f, 0x45, 0x4c, 0x46}` at offsets 0..3. -/
def isELF (data : List Nat) : Bool :=
  if data.length < 4 then false
  else
    data.getD 0 0 = 0x7f ∧ data.getD 1 0 = 0x45 ∧
      data.getD 2 0 = 0x4c ∧ data.getD 3 0 = 0x46

/-- Header-parse outcome of `printELFHeader`.  The success branches print
fields read strictly inside the checked header size, so they carry no
further data here; `oobRead` marks the undefined access `data[4]` made on
a buffer of length exactly 4. -/
inductive HeaderOutcome where
  | notELF
  | oobRead
  | tooShort32
  | tooShort64
  | elf32
  | elf64
  | unknownClass : Nat → HeaderOutcome
deriving DecidableEq

/-- Byte size of the packed `Elf32_Ehdr` structure. -/
def elf32HeaderSize : Nat := 52

/-- Byte size of the packed `Elf64_Ehdr` structure. -/
def elf64HeaderSize : Nat := 64

/-- Embedding of `printELFHeader`: magic validation, then the class byte at
offset 4, then the class-specific size check.  The source reads
`data[EI_CLASS]` before any check that the buffer holds more than the 4
magic bytes; on a 4-byte buffer that access is out of bounds, modelled by
the `none` branch. -/
def printELFHeader (data : List Nat) : HeaderOutcome :=
  if ¬ isELF data then .notELF
  else
    match data[4]? with
    | none => .oobRead
    | some elfClass =>
      if elfClass = 1 then
        if data.length < elf32HeaderSize then .tooShort32 else .elf32
      else if elfClass = 2 then
        if data.length < elf64HeaderSize then .tooShort64 else .elf64
      else .unknownClass elfClass

example : printELFHeader [] = .notELF := by decide

example : printELFHeader [0x7f, 0x45, 0x4c, 0x46] = .oobRead := by decide

example : printELFHeader [0x7f, 0x45, 0x4c, 0x46, 1] = .tooShort32 := by decide

example : printELFHeader [0x7f, 0x45, 0x4c, 0x46, 9] = .unknownClass 9 := by
  decide

/-! ## Section locator (function `findTextSection`) -/

/-- Little-endian unsigned read of `width` bytes at offset `off`; `none`
when any accessed byte is past the end of the buffer (the source does raw
pointer reads with no check, so such an access is undefined behavior). -/
def readLE (data : List Nat) (off : Nat) : Nat → Option Nat
  | 0 => some 0
  | width + 1 =>
    match data[off]?, readLE data (off + 1) width with
    | some b, some rest => some (b + 256 * rest)
    | _, _ => none

/-- The fields of `Elf64_Shdr`, each as an unbounded natural standing for
the unsigned value stored in the packed struct. -/
structure Shdr where
  sh_name : Nat
  sh_type : Nat
  sh_flags : Nat
  sh_addr : Nat
  sh_offset : Nat
  sh_size : Nat
  sh_link : Nat
  sh_info : Nat
  sh_addralign : Nat
  sh_entsize : Nat
deriving DecidableEq

/-- Size in bytes of the packed `Elf64_Shdr` structure; `sectionHeaders[i]`
in the source strides by this constant. -/
def shdrSize : Nat := 64

/-- Reading a whole `Elf64_Shdr` at byte offset `off`, field by field at the
packed-layout offsets 0,4,8,16,24,32,40,44,48,56. -/
def readShdr (data : List Nat) (off : Nat) : Option Shdr :=
  match readLE data off 4, readLE data (off + 4) 4, readLE data (off + 8) 8,
      readLE data (off + 16) 8, readLE data (off + 24) 8,
      readLE data (off + 32) 8, readLE data (off + 40) 4,
      readLE data (off + 44) 4, readLE data (off + 48) 8,
      readLE data (off + 56) 8 with
  | some a, some b, some c, some d, some e, some f, some g, some h, some i,
      some j => some ⟨a, b, c, d, e, f, g, h, i, j⟩
  | _, _, _, _, _, _, _, _, _, _ => none

/-- The fields of the `Elf64_Ehdr` that `findTextSection` reads from the
header pointer it is given. -/
structure Ehdr where
  e_shoff : Nat
  e_shentsize : Nat
  e_shnum : Nat
  e_shstrndx : Nat
deriving DecidableEq

/-- Embedding of `strcmp(sectionName, target) == 0` where `sectionName` is
the zero-terminated byte run at offset `off` of the image: compares byte
for byte, stopping at the first difference or at the terminator, and
returns `none` if it dereferences past the end of the image (undefined
behavior in the source). -/
def strcmpEq (data : List Nat) (off : Nat) : List Nat → Option Bool
  | [] =>
    match data[off]? with
    | none => none
    | some b => some (b = 0)
  | t :: ts =>
    match data[off]? with
    | none => none
    | some b => if b = t then strcmpEq data (off + 1) ts else some (false)

/-- The byte run of the literal ".text" compared against section names. -/
def dotText : List Nat := [0x2e, 0x74, 0x65, 0x78, 0x74]

/-- Outcome of `findTextSection`: the three diagnostic `return false`
paths, success with the matched entry fields `(sh_offset, sh_size)`, and
`oobRead` for an undefined raw read. -/
inductive LocateOutcome where
  | noSectionTable
  | invalidStrTabIndex
  | notFound
  | found : Nat → Nat → LocateOutcome
  | oobRead
deriving DecidableEq

/-- Name comparison performed for table entry `i`: read the entry at
`shoff + 64*i`, then compare the zero-terminated name at
`strTabOff + sh_name` with ".text". `none` when either raw read is
undefined. -/
def entryNameIs (fileData : List Nat) (shoff strTabOff i : Nat) :
    Option Bool :=
  match readShdr fileData (shoff + shdrSize * i) with
  | none => none
  | some sh => strcmpEq fileData (strTabOff + sh.sh_name) dotText

/-- Embedding of the scan loop `for (i = 0; i < sectionCount; i++)`; the
first argument of the recursion is the number of entries still to visit,
so the loop visits indices `i, i+1, ...` in ascending order and the first
match wins. -/
def findLoop (fileData : List Nat) (shoff strTabOff : Nat) :
    Nat → Nat → LocateOutcome
  | 0, _ => .notFound
  | remaining + 1, i =>
    match readShdr fileData (shoff + shdrSize * i) with
    | none => .oobRead
    | some sh =>
      match strcmpEq fileData (strTabOff + sh.sh_name) dotText with
      | none => .oobRead
      | some true => .found sh.sh_offset sh.sh_size
      | some false => findLoop fileData shoff strTabOff remaining (i + 1)

/-- Embedding of `findTextSection(fileData, elfHeader, ...)`: the
no-section-table check, the string-table index check, the read of the
string-table section header, then the ascending scan comparing each
name of each entry with ".text". -/
def findTextSection (fileData : List Nat) (hdr : Ehdr) : LocateOutcome :=
  if hdr.e_shoff = 0 ∨ hdr.e_shnum = 0 then .noSectionTable
  else if hdr.e_shstrndx ≥ hdr.e_shnum then .invalidStrTabIndex
  else
    match readShdr fileData (hdr.e_shoff + shdrSize * hdr.e_shstrndx) with
    | none => .oobRead
    | some stHdr =>
      findLoop fileData hdr.e_shoff stHdr.sh_offset hdr.e_shnum 0

/-! ## Region-bounds check in `main` -/

/-- Wrap-around modulus of the 64-bit unsigned addition
`textSectionOffset + textSize` in `main`. -/
def UINT64_MOD : Nat := 2 ^ 64

/-- Outcome of the `.text`-extraction step of `main`: the
"section exceeds file size" early exit, a well-defined slice, or an
out-of-bounds slice construction (undefined behavior in the source). -/
inductive RegionOutcome where
  | regionExceeds
  | sliced : List Nat → RegionOutcome
  | oobSlice
deriving DecidableEq

/-- Embedding of lines 309-315 of `main.cpp`: the guard compares the
64-bit wrapping sum `offset + size` with the image length, and on passing
builds the iterator-range slice `[offset, offset + size)`; building that
range when it does not lie inside the image is undefined behavior,
modelled by `oobSlice`. -/
def extractTextRegion (code : List Nat) (offset size : Nat) :
    RegionOutcome :=
  if (offset + size) % UINT64_MOD > code.length then .regionExceeds
  else if offset + size ≤ code.length then
    .sliced ((code.drop offset).take size)
  else .oobSlice

example : extractTextRegion [1, 2, 3] 1 2 = .sliced [2, 3] := by decide

example : extractTextRegion [1, 2, 3] 2 2 = .regionExceeds := by decide

/-! ## Concrete test images -/

/-- Little-endian encoding of `v` on `w` bytes, for building test images. -/
def encLE : Nat → Nat → List Nat
  | 0, _ => []
  | w + 1, v => (v % 256) :: encLE w (v / 256)

/-- Encoding of an `Elf64_Shdr` whose only nonzero fields are `sh_name`,
`sh_offset` and `sh_size`, in the packed layout. -/
def encodeShdr (nameOff off size : Nat) : List Nat :=
  encLE 4 nameOff ++ encLE 4 0 ++ encLE 8 0 ++ encLE 8 0 ++ encLE 8 off ++
    encLE 8 size ++ encLE 4 0 ++ encLE 4 0 ++ encLE 8 0 ++ encLE 8 0

/-- Image whose single section entry has `sh_name = 70` while the
string-table section (the entry itself) spans only `[0, 1)`: the name
offset points far past the string-table extent, yet the bytes at image
offset 70 spell ".text". -/
def c6img : List Nat :=
  [0, 0, 0, 0, 0, 0] ++ encodeShdr 70 0 1 ++ [0x2e, 0x74, 0x65, 0x78, 0x74, 0]

/-- Header for `c6img` and `c6img2`: table at offset 6, one entry, string
table index 0. -/
def c6hdr : Ehdr := ⟨6, 64, 1, 0⟩

/-- Like `c6img` but the trailing name bytes are ".tex" with no
terminator before the end of the image, so the name comparison walks off
the end of the buffer. -/
def c6img2 : List Nat :=
  [0, 0, 0, 0, 0, 0] ++ encodeShdr 70 0 1 ++ [0x2e, 0x74, 0x65, 0x78]

/-- Image with a string table (entry 0) and two further entries both named
".text" (name offset 1) with distinct `(sh_offset, sh_size)` payloads:
entry 1 carries `(0x100, 0x10)`, entry 2 carries `(0x200, 0x20)`. -/
def c8img : List Nat :=
  [0, 0x2e, 0x74, 0x65, 0x78, 0x74, 0, 0] ++ encodeShdr 0 0 7 ++
    encodeShdr 1 0x100 0x10 ++ encodeShdr 1 0x200 0x20

/-- Header for `c8img`: table at offset 8, three entries, string table
index 0. -/
def c8hdr : Ehdr := ⟨8, 64, 3, 0⟩

example : findTextSection c6img c6hdr = .found 0 1 := by decide

example : findTextSection c6img2 c6hdr = .oobRead := by decide

example : findTextSection c8img c8hdr = .found 0x100 0x10 := by decide

example : findTextSection c8img ⟨0, 64, 3, 0⟩ = .noSectionTable := by decide

example : findTextSection c8img ⟨8, 64, 3, 5⟩ = .invalidStrTabIndex := by
  decide

/-! ## Supporting lemmas -/

/-- Bitwise or of a shifted value with a value fitting below the shift is
plain addition. -/
theorem lor_shift_eq_add : ∀ (n a b : Nat), a < 2 ^ n →
    (b <<< n) ||| a = b <<< n + a := by
  intro n
  induction n with
  | zero =>
    intro a b h
    have ha : a = 0 := by omega
    subst ha
    simp
  | succ m ih =>
    intro a b h
    have hd : a / 2 < 2 ^ m := by
      have := Nat.pow_succ 2 m
      omega
    have h1 : b <<< (m + 1) = Nat.bit false (b <<< m) := by
      rw [Nat.shiftLeft_succ]
      simp [Nat.bit_val]
    have h2 : a = Nat.bit (a.testBit 0) (a / 2) := by
      simp [Nat.bit_val, Nat.testBit_zero]
      rcases Nat.mod_two_eq_zero_or_one a with hm | hm <;> simp [hm] <;> omega
    rw [h1]
    conv_lhs => rw [h2]
    rw [Nat.lor_bit]
    rw [ih (a / 2) b hd]
    simp [Nat.bit_val]
    rcases Nat.mod_two_eq_zero_or_one a with hm | hm <;> simp [hm] <;> omega

/-- On genuine byte values, the lor-and-shift expression of `read32` is
exactly the little-endian positional value of the four bytes. -/
theorem read32val_eq_arith (b0 b1 b2 b3 : Nat) (h0 : b0 < 256)
    (h1 : b1 < 256) (h2 : b2 < 256) :
    read32val b0 b1 b2 b3 =
      b0 + 256 * b1 + 65536 * b2 + 16777216 * b3 := by
  unfold read32val
  have e1 : b0 ||| (b1 <<< 8) = b1 <<< 8 + b0 := by
    rw [Nat.lor_comm]
    exact lor_shift_eq_add 8 b0 b1 (by omega)
  have hb1 : b1 <<< 8 + b0 < 2 ^ 16 := by
    rw [Nat.shiftLeft_eq]
    norm_num
    omega
  have e2 : (b1 <<< 8 + b0) ||| (b2 <<< 16) = b2 <<< 16 + (b1 <<< 8 + b0) := by
    rw [Nat.lor_comm]
    exact lor_shift_eq_add 16 _ b2 hb1
  have hb2 : b2 <<< 16 + (b1 <<< 8 + b0) < 2 ^ 24 := by
    rw [Nat.shiftLeft_eq, Nat.shiftLeft_eq]
    norm_num
    omega
  have e3 : (b2 <<< 16 + (b1 <<< 8 + b0)) ||| (b3 <<< 24) =
      b3 <<< 24 + (b2 <<< 16 + (b1 <<< 8 + b0)) := by
    rw [Nat.lor_comm]
    exact lor_shift_eq_add 24 _ b3 hb2
  rw [e1, e2, e3]
  rw [Nat.shiftLeft_eq, Nat.shiftLeft_eq, Nat.shiftLeft_eq]
  norm_num
  omega

/-! ## Claims on the decoder boundary behavior -/

/-- Claim C1 is refuted at its boundary: decoding the one-byte sequence
[0xB8] does fail with the truncation error and emits nothing, but with
exactly 3 bytes after the opcode (fewer than the 4 the claim covers) the
guard `i + 4 > code.size()` passes and the decode performs an
out-of-bounds read instead of failing with the truncation error. -/
theorem claimC1 :
    disassemble [0xB8] 0 = DecodeResult.truncated [] ∧
    disassemble [0xB8, 7, 7, 7] 0 = DecodeResult.oobRead [] := by
  decide

/-- Claim C3 is refuted: the length check of the `disassemble` loop does
not guarantee that all four indices touched by `read32` at cursor+1 are in
bounds.  On [0xB8, 0, 0, 0] the guard passes yet `read32` at index 1
accesses index 4, one past the end, so an index access returns `none`. -/
theorem claimC3 :
    disassemble [0xB8, 0, 0, 0] 0 = DecodeResult.oobRead [] ∧
    read32 [0xB8, 0, 0, 0] 1 = none := by
  decide

/-- Claim C5 is refuted at the minimal input: on the 4-byte sequence that
passes magic validation the parser reads the class byte at offset 4,
which is past the end of the sequence.  For longer inputs the class-specific
TooShort checks behave as claimed (second and third conjuncts). -/
theorem claimC5 :
    printELFHeader [0x7f, 0x45, 0x4c, 0x46] = HeaderOutcome.oobRead ∧
    printELFHeader [0x7f, 0x45, 0x4c, 0x46, 1] = HeaderOutcome.tooShort32 ∧
    printELFHeader [0x7f, 0x45, 0x4c, 0x46, 2] = HeaderOutcome.tooShort64 := by
  decide

/-- Claim C2 is refuted in the overflow case: the guard in `main` compares
the wrapping 64-bit sum `offset + size` with the image length.  With
offset 2^64 - 1 and size 2 the exact sum exceeds the 10-byte image, yet
the wrapped sum is 1, the guard passes, and the slice is constructed out
of bounds.  The first conjunct shows the guard does fire when the sum does
not wrap. -/
theorem claimC2 :
    extractTextRegion (List.replicate 10 0) 8 5 = RegionOutcome.regionExceeds ∧
    extractTextRegion (List.replicate 10 0) (2 ^ 64 - 1) 2 =
      RegionOutcome.oobSlice ∧
    2 ^ 64 - 1 + 2 > (List.replicate 10 0).length := by
  decide

/-- Claim C6 is refuted: the locator performs no guard on the name-pool
read.  In `c6img` the name offset of the entry (70) points far past the
extent of the string-table section (size 1) yet the lookup succeeds by reading
other image bytes; in `c6img2` the name comparison walks past the end of
the image itself. -/
theorem claimC6 :
    findTextSection c6img c6hdr = LocateOutcome.found 0 1 ∧
    findTextSection c6img2 c6hdr = LocateOutcome.oobRead := by
  decide

/-! ## Decoder step structure -/

/-- Prepending a record to a result is `ok` exactly when the tail is `ok`
of the remaining records. -/
theorem DecodeResult.cons_eq_ok {r : Record} {x : DecodeResult}
    {rs : List Record} :
    DecodeResult.cons r x = DecodeResult.ok rs ↔
      ∃ rs2, x = DecodeResult.ok rs2 ∧ rs = r :: rs2 := by
  cases x <;> simp [DecodeResult.cons, eq_comm]

/-- Every iteration of the decode loop on a nonempty buffer either aborts
immediately (truncation guard or out-of-bounds immediate read) emitting
nothing, or emits exactly one record whose byteWidth is the cursor advance
(1 or 5) and continues on the suffix that many bytes further on. -/
theorem disasmGo_cons_cases (p : DecoderProfile) (base opcode : Nat)
    (rest : List Nat) :
    disasmGo p base (opcode :: rest) = DecodeResult.truncated [] ∨
    disasmGo p base (opcode :: rest) = DecodeResult.oobRead [] ∨
    ∃ r w rest2, (w = 1 ∨ w = 5) ∧ r.byteWidth = w ∧ r.address = base ∧
      rest.length + 1 = rest2.length + w ∧
      disasmGo p base (opcode :: rest) =
        DecodeResult.cons r (disasmGo p (base + w) rest2) := by
  by_cases hmov : 0xB8 ≤ opcode ∧ opcode ≤ 0xBF
  · by_cases hlen : rest.length < 3
    · left
      rw [disasmGo.eq_def]
      simp [hmov, hlen]
    · rcases rest with _ | ⟨b0, _ | ⟨b1, _ | ⟨b2, _ | ⟨b3, rest2⟩⟩⟩⟩
      · simp at hlen
      · simp at hlen
      · simp at hlen
      · right
        left
        simp [disasmGo, hmov]
      · right
        right
        refine ⟨⟨base, "mov",
          (p.regNames.getD (opcode - 0xB8) "") ++ ", 0x" ++
            hexStr (read32val b0 b1 b2 b3), 5⟩, 5, rest2,
          Or.inr rfl, rfl, rfl, by simp, ?_⟩
        simp [disasmGo, hmov]
  · by_cases hret : p.hasRet = true ∧ opcode = 0xC3
    · right
      right
      refine ⟨⟨base, "ret", "", 1⟩, 1, rest, Or.inl rfl, rfl, rfl, rfl, ?_⟩
      rw [disasmGo.eq_def]
      simp [hmov, hret]
    · by_cases hnop : opcode = 0x90
      · right
        right
        refine ⟨⟨base, "nop", "", 1⟩, 1, rest, Or.inl rfl, rfl, rfl, rfl,
          ?_⟩
        rw [disasmGo.eq_def]
        simp [hmov, hret, hnop]
      · right
        right
        refine ⟨⟨base, "db", "0x" ++ pad2 (hexStr opcode), 1⟩, 1, rest,
          Or.inl rfl, rfl, rfl, rfl, ?_⟩
        rw [disasmGo.eq_def]
        simp [hmov, hret, hnop]

/-- Claim C9 (confirmed): the decode loop of a finite buffer terminates.
The embedding is a total function by recursion on the remaining suffix;
on the empty suffix (cursor at `bytes.length`) the loop stops with `ok`,
and on a nonempty suffix each iteration either aborts the whole decode or
strictly shrinks the remaining length by its cursor advance of 1 or 5. -/
theorem claimC9 (p : DecoderProfile) (base : Nat) (code : List Nat) :
    (code = [] → disasmGo p base code = DecodeResult.ok []) ∧
    (code ≠ [] →
      disasmGo p base code = DecodeResult.truncated [] ∨
      disasmGo p base code = DecodeResult.oobRead [] ∨
      ∃ r w rest2, (w = 1 ∨ w = 5) ∧ r.byteWidth = w ∧
        code.length = rest2.length + w ∧
        disasmGo p base code =
          DecodeResult.cons r (disasmGo p (base + w) rest2)) := by
  cases code with
  | nil => exact ⟨fun _ => rfl, fun h => absurd rfl h⟩
  | cons opcode rest =>
    refine ⟨fun h => (List.cons_ne_nil _ _ h).elim, fun _ => ?_⟩
    rcases disasmGo_cons_cases p base opcode rest with h | h | h
    · exact Or.inl h
    · exact Or.inr (Or.inl h)
    · rcases h with ⟨r, w, rest2, hw, hbw, _, hlen, heq⟩
      exact Or.inr (Or.inr ⟨r, w, rest2, hw, hbw, by simpa using hlen, heq⟩)

/-- Witness for C9 at the one-byte buffer [0x90]. -/
theorem claimC9_witness :
    ([0x90] ≠ ([] : List Nat)) ∧
    (disasmGo mainProfile 0 [0x90] = DecodeResult.truncated [] ∨
      disasmGo mainProfile 0 [0x90] = DecodeResult.oobRead [] ∨
      ∃ r w rest2, (w = 1 ∨ w = 5) ∧ r.byteWidth = w ∧
        ([0x90] : List Nat).length = rest2.length + w ∧
        disasmGo mainProfile 0 [0x90] =
          DecodeResult.cons r (disasmGo mainProfile (0 + w) rest2)) :=
  ⟨by decide, (claimC9 mainProfile 0 [0x90]).2 (by decide)⟩

/-- Claim C4 (confirmed): at any cursor whose byte is in [0xB8, 0xBF] with
at least 4 bytes following, the decoder emits one mov record carrying the
register name at index byte - 0xB8 of the 64-bit table and the
little-endian immediate of the next 4 bytes, and continues 5 bytes
further; on genuine bytes the immediate is the positional little-endian
value; and the sequence [0xB8, 1, 0, 0, 0, 0x90] decodes to exactly the
two records of the claim. -/
theorem claimC4 (base b b0 b1 b2 b3 : Nat) (rest : List Nat)
    (hlo : 0xB8 ≤ b) (hhi : b ≤ 0xBF)
    (h0 : b0 < 256) (h1 : b1 < 256) (h2 : b2 < 256) :
    disasmGo mainProfile base (b :: b0 :: b1 :: b2 :: b3 :: rest) =
      DecodeResult.cons
        ⟨base, "mov",
          (mainProfile.regNames.getD (b - 0xB8) "") ++ ", 0x" ++
            hexStr (b0 + 256 * b1 + 65536 * b2 + 16777216 * b3), 5⟩
        (disasmGo mainProfile (base + 5) rest) ∧
    disassemble [0xB8, 0x01, 0x00, 0x00, 0x00, 0x90] 0 =
      DecodeResult.ok [⟨0, "mov", "rax, 0x1", 5⟩, ⟨5, "nop", "", 1⟩] := by
  refine ⟨?_, by decide⟩
  rw [← read32val_eq_arith b0 b1 b2 b3 h0 h1 h2]
  simp [disasmGo, hlo, hhi]

/-- Witness for C4 at byte 0xB9 (register rcx) and operand bytes
4, 3, 2, 1. -/
theorem claimC4_witness :
    ((0xB8 ≤ (0xB9 : Nat) ∧ (0xB9 : Nat) ≤ 0xBF) ∧
      (4 : Nat) < 256 ∧ (3 : Nat) < 256 ∧ (2 : Nat) < 256) ∧
    (disasmGo mainProfile 3 [0xB9, 4, 3, 2, 1, 0xC3] =
      DecodeResult.cons
        ⟨3, "mov",
          (mainProfile.regNames.getD (0xB9 - 0xB8) "") ++ ", 0x" ++
            hexStr (4 + 256 * 3 + 65536 * 2 + 16777216 * 1), 5⟩
        (disasmGo mainProfile (3 + 5) [0xC3]) ∧
      disassemble [0xB8, 0x01, 0x00, 0x00, 0x00, 0x90] 0 =
        DecodeResult.ok [⟨0, "mov", "rax, 0x1", 5⟩, ⟨5, "nop", "", 1⟩]) :=
  ⟨by decide,
    claimC4 3 0xB9 4 3 2 1 [0xC3] (by decide) (by decide) (by decide)
      (by decide) (by decide)⟩

/-! ## Tiling of a completed decode -/

/-- Sum of the byteWidth fields of a list of records. -/
def sumWidths (rs : List Record) : Nat :=
  (rs.map Record.byteWidth).sum

theorem sumWidths_cons (r : Record) (rs : List Record) :
    sumWidths (r :: rs) = r.byteWidth + sumWidths rs := by
  simp [sumWidths]

/-- Bounded-length induction behind claim C10: an `ok` run tiles its
input, record addresses being the base plus the widths of all earlier
records and the widths summing to the buffer length. -/
theorem disasmGo_ok_tiling : ∀ (n : Nat) (code : List Nat),
    code.length ≤ n →
    ∀ (p : DecoderProfile) (base : Nat) (recs : List Record),
    disasmGo p base code = DecodeResult.ok recs →
    sumWidths recs = code.length ∧
    ∀ k (hk : k < recs.length),
      (recs.get ⟨k, hk⟩).address = base + sumWidths (recs.take k) := by
  intro n
  induction n with
  | zero =>
    intro code hle p base recs h
    have hc : code = [] := List.length_eq_zero.mp (Nat.le_zero.mp hle)
    subst hc
    have h2 : DecodeResult.ok ([] : List Record) = DecodeResult.ok recs := h
    injection h2 with h3
    subst h3
    exact ⟨rfl, fun k hk => absurd hk (by simp)⟩
  | succ m ih =>
    intro code hle p base recs h
    cases code with
    | nil =>
      have h2 : DecodeResult.ok ([] : List Record) = DecodeResult.ok recs := h
      injection h2 with h3
      subst h3
      exact ⟨rfl, fun k hk => absurd hk (by simp)⟩
    | cons opcode rest =>
      rcases disasmGo_cons_cases p base opcode rest with hc | hc | hc
      · rw [hc] at h
        exact absurd h (by simp)
      · rw [hc] at h
        exact absurd h (by simp)
      · rcases hc with ⟨r, w, rest2, hw, hbw, haddr, hlen, heq⟩
        rw [heq] at h
        rcases DecodeResult.cons_eq_ok.mp h with ⟨recs2, hok, hr⟩
        subst hr
        have hwpos : 1 ≤ w := by rcases hw with rfl | rfl <;> omega
        have hlen2 : rest2.length ≤ m := by
          simp only [List.length_cons] at hle
          omega
        obtain ⟨hs, ha⟩ := ih rest2 hlen2 p (base + w) recs2 hok
        constructor
        · rw [sumWidths_cons, hbw, hs]
          simp only [List.length_cons]
          omega
        · intro k hk
          cases k with
          | zero =>
            simp [sumWidths, haddr]
          | succ j =>
            have hj : j < recs2.length := by simpa using hk
            have hrec := ha j hj
            have hget : ((r :: recs2).get ⟨j + 1, hk⟩) = recs2.get ⟨j, hj⟩ :=
              rfl
            rw [hget, hrec, List.take_succ_cons, sumWidths_cons, hbw]
            omega

/-- Claim C10 (confirmed): when a decode completes with `ok`, the records
exactly tile the input buffer: the address of each record is the base address
plus the byteWidths of all earlier records, and the byteWidths sum to the
whole input length. -/
theorem claimC10 (p : DecoderProfile) (base : Nat) (code : List Nat)
    (recs : List Record) (h : disasmGo p base code = DecodeResult.ok recs) :
    sumWidths recs = code.length ∧
    ∀ k (hk : k < recs.length),
      (recs.get ⟨k, hk⟩).address = base + sumWidths (recs.take k) :=
  disasmGo_ok_tiling code.length code le_rfl p base recs h

/-- Witness for C10 on the mov-plus-nop buffer of the spec. -/
theorem claimC10_witness :
    disasmGo mainProfile 0 [0xB8, 1, 0, 0, 0, 0x90] =
      DecodeResult.ok [⟨0, "mov", "rax, 0x1", 5⟩, ⟨5, "nop", "", 1⟩] ∧
    sumWidths [⟨0, "mov", "rax, 0x1", 5⟩, ⟨5, "nop", "", 1⟩] =
      ([0xB8, 1, 0, 0, 0, 0x90] : List Nat).length :=
  ⟨by decide,
    (claimC10 mainProfile 0 [0xB8, 1, 0, 0, 0, 0x90]
      [⟨0, "mov", "rax, 0x1", 5⟩, ⟨5, "nop", "", 1⟩] (by decide)).1⟩

/-! ## Locator scan structure -/

/-- The scan loop never produces the two outcomes reserved for the checks
that precede it. -/
theorem findLoop_ne (fileData : List Nat) (shoff st : Nat) :
    ∀ remaining i,
      findLoop fileData shoff st remaining i ≠
        LocateOutcome.noSectionTable ∧
      findLoop fileData shoff st remaining i ≠
        LocateOutcome.invalidStrTabIndex := by
  intro remaining
  induction remaining with
  | zero =>
    intro i
    simp [findLoop]
  | succ m ih =>
    intro i
    simp only [findLoop]
    split
    · simp
    · split
      · simp
      · simp
      · exact ih (i + 1)

/-- The scan loop reports the not-found outcome exactly when every entry
it visits has a name that resolves and differs from ".text". -/
theorem findLoop_notFound (fileData : List Nat) (shoff st : Nat) :
    ∀ remaining i,
      findLoop fileData shoff st remaining i = LocateOutcome.notFound ↔
        ∀ k, k < remaining →
          entryNameIs fileData shoff st (i + k) = some false := by
  intro remaining
  induction remaining with
  | zero =>
    intro i
    simp [findLoop]
  | succ m ih =>
    intro i
    simp only [findLoop]
    split
    next hsh =>
      constructor
      · intro h
        exact absurd h (by simp)
      · intro hall
        have h0 := hall 0 (by omega)
        simp [entryNameIs, hsh] at h0
    next sh hsh =>
      split
      next hcmp =>
        constructor
        · intro h
          exact absurd h (by simp)
        · intro hall
          have h0 := hall 0 (by omega)
          simp [entryNameIs, hsh, hcmp] at h0
      next hcmp =>
        constructor
        · intro h
          exact absurd h (by simp)
        · intro hall
          have h0 := hall 0 (by omega)
          simp [entryNameIs, hsh, hcmp] at h0
      next hcmp =>
        rw [ih (i + 1)]
        constructor
        · intro hall k hk
          cases k with
          | zero =>
            simp [entryNameIs, hsh, hcmp]
          | succ j =>
            have hj := hall j (by omega)
            have heq : i + 1 + j = i + (j + 1) := by omega
            rwa [heq] at hj
        · intro hall k hk
          have hk1 := hall (k + 1) (by omega)
          have heq : i + (k + 1) = i + 1 + k := by omega
          rwa [heq] at hk1

/-- If entry `j` is in range, resolves to ".text", and every entry from
`i` up to `j` resolves to a different name, the scan starting at `i`
stops at entry `j` and returns its offset and size. -/
theorem findLoop_found (fileData : List Nat) (shoff st : Nat) (sh : Shdr)
    (j : Nat)
    (hsh : readShdr fileData (shoff + shdrSize * j) = some sh)
    (hmatch : strcmpEq fileData (st + sh.sh_name) dotText = some true) :
    ∀ remaining i, i ≤ j → j < i + remaining →
      (∀ k, i ≤ k → k < j →
        entryNameIs fileData shoff st k = some false) →
      findLoop fileData shoff st remaining i =
        LocateOutcome.found sh.sh_offset sh.sh_size := by
  intro remaining
  induction remaining with
  | zero =>
    intro i hij hj _
    omega
  | succ m ih =>
    intro i hij hj hbefore
    by_cases he : i = j
    · subst he
      simp only [findLoop]
      split
      next hshi =>
        rw [hsh] at hshi
        cases hshi
      next shi hshi =>
        rw [hsh] at hshi
        injection hshi with he2
        subst he2
        split
        next hc =>
          rw [hmatch] at hc
          cases hc
        next hc =>
          rfl
        next hc =>
          rw [hmatch] at hc
          simp at hc
    · have hlt : i < j := by omega
      have hfalse := hbefore i le_rfl hlt
      simp only [findLoop]
      split
      next hshi =>
        simp [entryNameIs, hshi] at hfalse
      next shi hshi =>
        split
        next hc =>
          simp [entryNameIs, hshi, hc] at hfalse
        next hc =>
          simp [entryNameIs, hshi, hc] at hfalse
        next hc =>
          exact ih (i + 1) (by omega) (by omega)
            (fun k hk1 hk2 => hbefore k (by omega) hk2)

/-- Claim C7 (confirmed): the locate operation fails with the
no-section-table outcome exactly when the table offset or the entry count
is zero (checked first), with the invalid-string-table-index outcome
exactly when the index reaches the count (checked second), and with the
not-found outcome exactly when the string-table header is readable and
the resolved name of every entry differs from ".text". -/
theorem claimC7 (fileData : List Nat) (hdr : Ehdr) :
    (findTextSection fileData hdr = LocateOutcome.noSectionTable ↔
      (hdr.e_shoff = 0 ∨ hdr.e_shnum = 0)) ∧
    (findTextSection fileData hdr = LocateOutcome.invalidStrTabIndex ↔
      (¬ (hdr.e_shoff = 0 ∨ hdr.e_shnum = 0) ∧
        hdr.e_shnum ≤ hdr.e_shstrndx)) ∧
    (findTextSection fileData hdr = LocateOutcome.notFound ↔
      (¬ (hdr.e_shoff = 0 ∨ hdr.e_shnum = 0) ∧
        hdr.e_shstrndx < hdr.e_shnum ∧
        ∃ stHdr,
          readShdr fileData
            (hdr.e_shoff + shdrSize * hdr.e_shstrndx) = some stHdr ∧
          ∀ i, i < hdr.e_shnum →
            entryNameIs fileData hdr.e_shoff stHdr.sh_offset i =
              some false)) := by
  by_cases h0 : hdr.e_shoff = 0 ∨ hdr.e_shnum = 0
  · simp [findTextSection, h0]
  · by_cases h1 : hdr.e_shstrndx ≥ hdr.e_shnum
    · have h1' : ¬ hdr.e_shstrndx < hdr.e_shnum := by omega
      simp [findTextSection, h0, h1, h1']
    · have h1' : hdr.e_shstrndx < hdr.e_shnum := by omega
      simp only [findTextSection, if_neg h0, if_neg h1]
      split
      next hst =>
        simp [h0, h1, hst]
      next stHdr hst =>
        refine ⟨?_, ?_, ?_⟩
        · exact ⟨fun h =>
            absurd h (findLoop_ne fileData hdr.e_shoff stHdr.sh_offset
              hdr.e_shnum 0).1,
            fun h => absurd h h0⟩
        · exact ⟨fun h =>
            absurd h (findLoop_ne fileData hdr.e_shoff stHdr.sh_offset
              hdr.e_shnum 0).2,
            fun h => absurd h.2 h1⟩
        · constructor
          · intro h
            refine ⟨h0, h1', stHdr, hst, fun i hi => ?_⟩
            have hk := (findLoop_notFound fileData hdr.e_shoff
              stHdr.sh_offset hdr.e_shnum 0).mp h i hi
            simpa using hk
          · rintro ⟨-, -, stHdr2, hst2, hall⟩
            rw [hst] at hst2
            injection hst2 with he
            subst he
            apply (findLoop_notFound fileData hdr.e_shoff
              stHdr.sh_offset hdr.e_shnum 0).mpr
            intro k hk
            simpa using hall k hk

/-- Witness for C7: on `c8img` with a header whose table offset is 0,
the locate operation reports the no-section-table outcome. -/
theorem claimC7_witness :
    findTextSection c8img ⟨0, 64, 3, 0⟩ = LocateOutcome.noSectionTable :=
  (claimC7 c8img ⟨0, 64, 3, 0⟩).1.mpr (by decide)

/-- Claim C8 (confirmed): the scan visits entries in ascending index
order and returns the offset and size of the first entry whose resolved
name is exactly ".text"; any later entries, matching or not, are
irrelevant. -/
theorem claimC8 (fileData : List Nat) (hdr : Ehdr) (stHdr sh : Shdr)
    (j : Nat)
    (h0 : ¬ (hdr.e_shoff = 0 ∨ hdr.e_shnum = 0))
    (h1 : hdr.e_shstrndx < hdr.e_shnum)
    (hst : readShdr fileData (hdr.e_shoff + shdrSize * hdr.e_shstrndx) =
      some stHdr)
    (hj : j < hdr.e_shnum)
    (hsh : readShdr fileData (hdr.e_shoff + shdrSize * j) = some sh)
    (hmatch : strcmpEq fileData (stHdr.sh_offset + sh.sh_name) dotText =
      some true)
    (hbefore : ∀ i, i < j →
      entryNameIs fileData hdr.e_shoff stHdr.sh_offset i = some false) :
    findTextSection fileData hdr =
      LocateOutcome.found sh.sh_offset sh.sh_size := by
  have h1' : ¬ hdr.e_shstrndx ≥ hdr.e_shnum := by omega
  simp only [findTextSection, if_neg h0, if_neg h1']
  split
  next hst2 =>
    rw [hst] at hst2
    cases hst2
  next stHdr2 hst2 =>
    rw [hst] at hst2
    injection hst2 with he
    subst he
    exact findLoop_found fileData hdr.e_shoff stHdr.sh_offset sh j hsh
      hmatch hdr.e_shnum 0 (by omega) (by omega)
      (fun k _ hk2 => hbefore k hk2)

/-- Witness for C8 on `c8img`, whose entries 1 and 2 both bear the name
".text": the scan selects entry 1 and returns its offset 0x100 and size
0x10, not the 0x200 and 0x20 of entry 2. -/
theorem claimC8_witness :
    ((1 : Nat) < 3 ∧
      (∀ i, i < 1 → entryNameIs c8img 8 0 i = some false)) ∧
    findTextSection c8img c8hdr = LocateOutcome.found 0x100 0x10 :=
  ⟨⟨by decide, by decide⟩,
    claimC8 c8img c8hdr ⟨0, 0, 0, 0, 0, 7, 0, 0, 0, 0⟩
      ⟨1, 0, 0, 0, 0x100, 0x10, 0, 0, 0, 0⟩ 1 (by decide) (by decide)
      (by decide) (by decide) (by decide) (by decide)
      (by decide)⟩

end Disassembler
